import Mathlib

/-!
Verification of the ConvoCode streaming turn aggregator.

The repository contains three front ends around one duplicated streaming
loop over Ollama chat fragments:
- `src/src/extension.ts` (`activate`, lines 41-57): the VS Code webview
  front end, posting messages `thinking` / `updateThinking` /
  `startResponse` / `appendResponse` / `error` to the webview;
- `src/cc_cli.mjs` (`chat`, lines 45-62): the terminal CLI, writing to
  standard output;
- `src/unnamed/part_001` (`activate`, lines 31-45): the VS Code output
  channel front end.

Each front end runs the same per-fragment state machine over a single
boolean `started` flag:

  if (chunk.message.thinking && !started) { <show thinking> }
  if (chunk.message.content) {
    if (!started) { started = true; <emit response separator/start> }
    <emit content>
  }

This file embeds the three loops, the webview message handler
(`getWebviewContent`, extension.ts lines 118-144) and the input guards
(cc_cli.mjs lines 21-26, extension.ts lines 108-116) as Lean functions,
plus a relational small-step presentation of the aggregation loop, and
proves the streaming properties claimed for them.
-/

/-- One streaming fragment (`chunk.message` of the Ollama stream).
JavaScript reads `chunk.message.thinking` and `chunk.message.content`
with truthiness checks; an absent or empty field is falsy, so both are
modelled as strings with `""` for empty/absent. -/
structure Fragment where
  thinking : String
  content  : String
deriving DecidableEq, Repr

/-- A render instruction of the webview front end: one
`panel.webview.postMessage` command (extension.ts lines 32, 44, 49, 51, 55),
plus `turnCompleted`, which models the normal return of the message handler
once the `for await` loop exhausts the stream (the spec's `TurnCompleted`
event; the webview protocol itself has no message for it). -/
inductive Msg where
  | thinking
  | updateThinking (text : String)
  | startResponse
  | appendResponse (text : String)
  | error (text : String)
  | turnCompleted
deriving DecidableEq, Repr

/-- One unit delivered by the chunk source: either a fragment, or the
stream failing (the `for await` raising) with a message. -/
inductive Item where
  | frag (f : Fragment)
  | fail (msg : String)
deriving DecidableEq, Repr

/-- Thinking branch of the loop body (extension.ts lines 43-45):
`if (chunk.message.thinking && !started) postMessage updateThinking`. -/
def thinkEvents (started : Bool) (c : Fragment) : List Msg :=
  if c.thinking ≠ "" ∧ started = false then [Msg.updateThinking c.thinking] else []

/-- Content branch of the loop body (extension.ts lines 46-52):
`if (chunk.message.content) { if (!started) { started = true; post
startResponse } post appendResponse }`. Returns the updated flag and the
posted messages. -/
def contentStep (started : Bool) (c : Fragment) : Bool × List Msg :=
  if c.content ≠ "" then
    if started then (true, [Msg.appendResponse c.content])
    else (true, [Msg.startResponse, Msg.appendResponse c.content])
  else (started, [])

/-- One iteration of the webview front end's `for await` loop
(extension.ts lines 42-53): thinking branch, then content branch. -/
def processChunk (started : Bool) (c : Fragment) : Bool × List Msg :=
  let t := thinkEvents started c
  let p := contentStep started c
  (p.1, t ++ p.2)

/-- The loop over a pure fragment sequence (no stream failure):
messages posted while consuming the given fragments in order. -/
def runChunks : Bool → List Fragment → List Msg
  | _, [] => []
  | started, c :: cs =>
    let p := processChunk started c
    p.2 ++ runChunks p.1 cs

/-- The whole turn of the webview front end (extension.ts lines 33-56):
the loop inside `try`, with the `catch` posting `error` with the raised
message and processing nothing further; normal exhaustion is marked
`turnCompleted`. -/
def runItems : Bool → List Item → List Msg
  | _, [] => [Msg.turnCompleted]
  | started, Item.frag c :: rest =>
    let p := processChunk started c
    p.2 ++ runItems p.1 rest
  | _, Item.fail m :: _ => [Msg.error m]

/-- One write action of the CLI front end: `process.stdout.write`
or `console.log` (which appends a newline). Chalk coloring is dropped;
only the text written matters. -/
inductive CliOut where
  | write (s : String)
  | logLine (s : String)
deriving DecidableEq, Repr

/-- The literal separator the CLI prints once at response start
(cc_cli.mjs line 55: `console.log('\nResponse:\n========')`). -/
def cliSeparator : String := "\nResponse:\n========"

/-- One iteration of the CLI `for await` loop (cc_cli.mjs lines 47-58). -/
def cliChunk (started : Bool) (c : Fragment) : Bool × List CliOut :=
  let t := if c.thinking ≠ "" ∧ started = false then [CliOut.write c.thinking] else []
  if c.content ≠ "" then
    if started then (true, t ++ [CliOut.write c.content])
    else (true, t ++ [CliOut.logLine cliSeparator, CliOut.write c.content])
  else (started, t)

/-- The CLI turn (cc_cli.mjs lines 45-62). The `chat` handler has no
try/catch: if the stream raises, the loop aborts and the exception
escapes the `line` listener uncaught — nothing more is written by the
program. Returns the writes performed and the escaped error, if any.
On normal exhaustion the CLI runs `console.log('\n')` (line 61). -/
def cliRunItems : Bool → List Item → List CliOut × Option String
  | _, [] => ([CliOut.logLine "\n"], none)
  | started, Item.frag c :: rest =>
    let p := cliChunk started c
    let r := cliRunItems p.1 rest
    (p.2 ++ r.1, r.2)
  | _, Item.fail m :: _ => ([], some m)

/-- CLI writes over a pure fragment sequence (no failure). -/
def cliRun (started : Bool) (frags : List Fragment) : List CliOut :=
  (cliRunItems started (frags.map Item.frag)).1

/-- One write action of the output channel front end:
`output.append` or `output.appendLine` (part_001 lines 33-44). -/
inductive ChanOut where
  | append (s : String)
  | appendLine (s : String)
deriving DecidableEq, Repr

/-- One iteration of the output channel `for await` loop
(part_001 lines 32-45). The separator is printed as three `appendLine`
calls: `''`, `'Response:'`, `'========'`. -/
def chanChunk (started : Bool) (c : Fragment) : Bool × List ChanOut :=
  let t := if c.thinking ≠ "" ∧ started = false then [ChanOut.append c.thinking] else []
  if c.content ≠ "" then
    if started then (true, t ++ [ChanOut.append c.content])
    else
      (true, t ++ [ChanOut.appendLine "", ChanOut.appendLine "Response:",
        ChanOut.appendLine "========", ChanOut.append c.content])
  else (started, t)

/-- The output channel loop over a fragment sequence; nothing is written
after the loop (the command goes back to `showInputBox`). -/
def chanRun : Bool → List Fragment → List ChanOut
  | _, [] => []
  | started, c :: cs =>
    let p := chanChunk started c
    p.2 ++ chanRun p.1 cs

/-- The output channel turn over the items of the source (part_001
lines 24-45). Like the CLI, the command handler has no try/catch: if the
stream raises, the loop aborts, the exception escapes the command
callback uncaught, and nothing more is written to the channel. Returns
the writes performed and the escaped error, if any; normal exhaustion
writes nothing further (the loop goes back to `showInputBox`). -/
def chanRunItems : Bool → List Item → List ChanOut × Option String
  | _, [] => ([], none)
  | started, Item.frag c :: rest =>
    let p := chanChunk started c
    let r := chanRunItems p.1 rest
    (p.2 ++ r.1, r.2)
  | _, Item.fail m :: _ => ([], some m)

/-- The `.response-content` span of the last assistant message in the
webview: its `data-raw` attribute and its rendered `innerHTML`
(extension.ts lines 129, 132-137). -/
structure ContentEl where
  dataRaw   : String
  innerHTML : String
deriving DecidableEq, Repr

/-- The `appendResponse` handler body on an existing content element
(extension.ts lines 134-136): extend `data-raw` by the incoming text and
set `innerHTML` to `marked.parse` of the whole accumulated raw text.
`render` stands for the external `marked.parse`. -/
def appendResponseEl (render : String → String) (el : ContentEl) (text : String) : ContentEl :=
  let raw := el.dataRaw ++ text
  { dataRaw := raw, innerHTML := render raw }

/-- Webview chat transcript state relevant to the aggregator: the latest
thinking element's text, the latest assistant message's content element,
and the error blocks appended so far. -/
structure WebviewState where
  thinkingEl : Option String
  contentEl  : Option ContentEl
  errors     : List String
deriving DecidableEq, Repr

/-- The webview `message` event handler switch (extension.ts
lines 118-144), as a state transition per received message. `render`
stands for the external `marked.parse`. `turnCompleted` has no handler
case (no such message is ever posted) and leaves the state unchanged. -/
def webviewStep (render : String → String) (st : WebviewState) : Msg → WebviewState
  | Msg.thinking => { st with thinkingEl := some "Thinking..." }
  | Msg.updateThinking t =>
    match st.thinkingEl with
    | some _ => { st with thinkingEl := some t }
    | none => st
  | Msg.startResponse => { st with contentEl := some ⟨"", ""⟩ }
  | Msg.appendResponse t =>
    match st.contentEl with
    | some el => { st with contentEl := some (appendResponseEl render el t) }
    | none => st
  | Msg.error t => { st with errors := st.errors ++ [t] }
  | Msg.turnCompleted => st

/-- The empty chat transcript (`<div id="chat"></div>`). -/
def emptyChat : WebviewState := ⟨none, none, []⟩

/-- Run the webview handler over a list of posted messages. -/
def webviewRun (render : String → String) (st : WebviewState) (msgs : List Msg) : WebviewState :=
  msgs.foldl (webviewStep render) st

/-- Outcome of one `line` event in the CLI (cc_cli.mjs lines 21-26):
either no turn is created (`rl.prompt(); return`), or a turn starts with
the trimmed user message. -/
inductive LineOutcome where
  | noTurn
  | turn (userMessage : String)
deriving DecidableEq, Repr

/-- Whitespace stripped by JavaScript `String.prototype.trim`: the
WhiteSpace and LineTerminator code points of ECMA-262 (tab, line feed,
vertical tab, form feed, carriage return, space, no-break space,
zero-width no-break space, the Unicode space separators, line separator
and paragraph separator). -/
def jsWhitespace (c : Char) : Bool :=
  c = ' ' || c = '\t' || c = '\n' || c = '\r' || c = '\x0b' ||
  c = '\x0c' || c = '\u00a0' || c = '\ufeff' || c = '\u1680' || c = '\u2000' ||
  c = '\u2001' || c = '\u2002' || c = '\u2003' || c = '\u2004' || c = '\u2005' ||
  c = '\u2006' || c = '\u2007' || c = '\u2008' || c = '\u2009' || c = '\u200a' ||
  c = '\u202f' || c = '\u205f' || c = '\u3000' || c = '\u2028' || c = '\u2029'

/-- JavaScript `String.prototype.trim`: drop leading and trailing
whitespace characters. -/
def jsTrim (s : String) : String :=
  String.mk (((s.data.dropWhile jsWhitespace).reverse.dropWhile jsWhitespace).reverse)

/-- The CLI `line` listener guard (cc_cli.mjs lines 22-26):
`const userMessage = line.trim(); if (!userMessage) { rl.prompt(); return; }`. -/
def onLine (line : String) : LineOutcome :=
  let userMessage := jsTrim line
  if userMessage = "" then LineOutcome.noTurn else LineOutcome.turn userMessage

/-- The webview send-button click guard (extension.ts lines 109-113):
`const text = inputEl.value.trim(); if (!text) return;` — `none` means no
`send` message is posted and no user block is inserted. -/
def sendClick (inputValue : String) : Option String :=
  let text := jsTrim inputValue
  if text = "" then none else some text

/-- One round of the output channel command loop's input handling
(part_001 lines 12-29). `showInputBox` resolving to `undefined` (`none`:
the user dismissed the box) breaks the loop; any submitted string — the
handler has no trim and no emptiness check — proceeds to a turn: the
channel is cleared, a `Thinking...` line is written, and a chat request
is issued with the submitted text as the user content. The result is
`none` for break, or the pre-stream write paired with the request
content. -/
def chanOnInput : Option String → Option (List ChanOut × String)
  | none => none
  | some userInput => some ([ChanOut.appendLine "Thinking..."], userInput)

/-- Concatenation, in arrival order, of every fragment's answer text. -/
def answersConcat : List Fragment → String
  | [] => ""
  | c :: cs => c.content ++ answersConcat cs

/-- Recognizes `startResponse`. -/
def isStart : Msg → Bool
  | Msg.startResponse => true
  | _ => false

/-- Recognizes `appendResponse`. -/
def isAppend : Msg → Bool
  | Msg.appendResponse _ => true
  | _ => false

/-- Recognizes `updateThinking`. -/
def isThinkUpd : Msg → Bool
  | Msg.updateThinking _ => true
  | _ => false

/-- Recognizes `turnCompleted`. -/
def isCompleted : Msg → Bool
  | Msg.turnCompleted => true
  | _ => false

/-- Recognizes `error`. -/
def isError : Msg → Bool
  | Msg.error _ => true
  | _ => false

/-- Translation of a webview aggregator message into the CLI writes the
same loop iteration performs in `cc_cli.mjs` (the two loops are the same
state machine over different sinks). -/
def toCli : Msg → List CliOut
  | Msg.updateThinking t => [CliOut.write t]
  | Msg.startResponse => [CliOut.logLine cliSeparator]
  | Msg.appendResponse t => [CliOut.write t]
  | Msg.turnCompleted => [CliOut.logLine "\n"]
  | _ => []

/-- Translation of a webview aggregator message into the output channel
writes the same loop iteration performs in `part_001`. -/
def toChan : Msg → List ChanOut
  | Msg.updateThinking t => [ChanOut.append t]
  | Msg.startResponse =>
    [ChanOut.appendLine "", ChanOut.appendLine "Response:", ChanOut.appendLine "========"]
  | Msg.appendResponse t => [ChanOut.append t]
  | _ => []

/-- Texts of the `error` messages in a posted message list, in order. -/
def errorTexts : List Msg → List String
  | [] => []
  | Msg.error t :: ms => t :: errorTexts ms
  | Msg.thinking :: ms => errorTexts ms
  | Msg.updateThinking _ :: ms => errorTexts ms
  | Msg.startResponse :: ms => errorTexts ms
  | Msg.appendResponse _ :: ms => errorTexts ms
  | Msg.turnCompleted :: ms => errorTexts ms

/-- Relational presentation of the thinking branch of the loop body
(extension.ts lines 43-45): which `updateThinking` events may be posted
for a fragment under a given `started` flag. -/
inductive ThinkOut : Bool → Fragment → List Msg → Prop
  | emit (f : Fragment) (h : f.thinking ≠ "") :
      ThinkOut false f [Msg.updateThinking f.thinking]
  | skipStarted (f : Fragment) : ThinkOut true f []
  | skipEmpty (s : Bool) (f : Fragment) (h : f.thinking = "") : ThinkOut s f []

/-- Relational presentation of the content branch of the loop body
(extension.ts lines 46-52): the resulting `started` flag and the
messages that may be posted for a fragment. -/
inductive ContentOut : Bool → Fragment → Bool × List Msg → Prop
  | start (f : Fragment) (h : f.content ≠ "") :
      ContentOut false f (true, [Msg.startResponse, Msg.appendResponse f.content])
  | more (f : Fragment) (h : f.content ≠ "") :
      ContentOut true f (true, [Msg.appendResponse f.content])
  | skip (s : Bool) (f : Fragment) (h : f.content = "") : ContentOut s f (s, [])

/-- Relational presentation of a whole turn (extension.ts lines 33-56):
a run relates a `started` flag and an item sequence to an event
sequence the turn may produce. -/
inductive AggRun : Bool → List Item → List Msg → Prop
  | exhausted (s : Bool) : AggRun s [] [Msg.turnCompleted]
  | failed (s : Bool) (m : String) (rest : List Item) :
      AggRun s (Item.fail m :: rest) [Msg.error m]
  | step (s s' : Bool) (f : Fragment) (e1 e2 out : List Msg) (rest : List Item)
      (h1 : ThinkOut s f e1) (h2 : ContentOut s f (s', e2))
      (h3 : AggRun s' rest out) :
      AggRun s (Item.frag f :: rest) (e1 ++ (e2 ++ out))

theorem runChunks_cons (s : Bool) (c : Fragment) (cs : List Fragment) :
    runChunks s (c :: cs) = (processChunk s c).2 ++ runChunks (processChunk s c).1 cs := rfl

theorem cliRun_nil (s : Bool) : cliRun s [] = [CliOut.logLine "\n"] := rfl

theorem cliRun_cons (s : Bool) (c : Fragment) (cs : List Fragment) :
    cliRun s (c :: cs) = (cliChunk s c).2 ++ cliRun (cliChunk s c).1 cs := rfl

theorem cliChunk_eq (s : Bool) (c : Fragment) :
    cliChunk s c = ((processChunk s c).1, (processChunk s c).2.flatMap toCli) := by
  cases s <;> by_cases hc : c.content = "" <;> by_cases ht : c.thinking = "" <;>
    simp_all [cliChunk, processChunk, thinkEvents, contentStep, toCli]

theorem chanChunk_eq (s : Bool) (c : Fragment) :
    chanChunk s c = ((processChunk s c).1, (processChunk s c).2.flatMap toChan) := by
  cases s <;> by_cases hc : c.content = "" <;> by_cases ht : c.thinking = "" <;>
    simp_all [chanChunk, processChunk, thinkEvents, contentStep, toChan]

theorem cliRun_eq_bind (s : Bool) (frags : List Fragment) :
    cliRun s frags = (runChunks s frags).flatMap toCli ++ [CliOut.logLine "\n"] := by
  induction frags generalizing s with
  | nil => rfl
  | cons c cs ih =>
    rw [cliRun_cons, runChunks_cons, cliChunk_eq]
    simp [ih]

theorem chanRun_eq_bind (s : Bool) (frags : List Fragment) :
    chanRun s frags = (runChunks s frags).flatMap toChan := by
  induction frags generalizing s with
  | nil => rfl
  | cons c cs ih =>
    rw [chanRun, runChunks_cons, chanChunk_eq]
    simp [ih]

theorem runItems_map_frag (s : Bool) (frags : List Fragment) :
    runItems s (frags.map Item.frag) = runChunks s frags ++ [Msg.turnCompleted] := by
  induction frags generalizing s with
  | nil => rfl
  | cons c cs ih => simp [runItems, runChunks_cons, ih]

theorem thinkEvents_start_free (s : Bool) (c : Fragment) :
    (thinkEvents s c).countP isStart = 0 ∧ (thinkEvents s c).countP isAppend = 0 := by
  by_cases h : c.thinking ≠ "" ∧ s = false <;> simp [thinkEvents, h, isStart, isAppend]

theorem runChunks_true_start_free (frags : List Fragment) :
    (runChunks true frags).countP isStart = 0 := by
  induction frags with
  | nil => rfl
  | cons c cs ih =>
    rw [runChunks_cons]
    by_cases hc : c.content = "" <;>
      simp [processChunk, thinkEvents, contentStep, hc, isStart, ih, List.countP_append]

theorem runChunks_false_split (frags : List Fragment)
    (h : ∃ f ∈ frags, f.content ≠ "") :
    ∃ l1 l2, runChunks false frags = l1 ++ Msg.startResponse :: l2 ∧
      l1.countP isStart = 0 ∧ l1.countP isAppend = 0 ∧ l2.countP isStart = 0 := by
  induction frags with
  | nil => simp at h
  | cons c cs ih =>
    by_cases hc : c.content = ""
    · have h' : ∃ f ∈ cs, f.content ≠ "" := by
        rcases h with ⟨f, hf, hv⟩
        rcases List.mem_cons.mp hf with rfl | hf'
        · exact absurd hc hv
        · exact ⟨f, hf', hv⟩
      rcases ih h' with ⟨l1, l2, heq, h1, h2, h3⟩
      refine ⟨thinkEvents false c ++ l1, l2, ?_, ?_, ?_, h3⟩
      · rw [runChunks_cons]
        simp [processChunk, contentStep, hc, heq]
      · simp [List.countP_append, (thinkEvents_start_free false c).1, h1]
      · simp [List.countP_append, (thinkEvents_start_free false c).2, h2]
    · refine ⟨thinkEvents false c,
        Msg.appendResponse c.content :: runChunks true cs, ?_, ?_, ?_, ?_⟩
      · rw [runChunks_cons]
        simp [processChunk, contentStep, hc]
      · exact (thinkEvents_start_free false c).1
      · exact (thinkEvents_start_free false c).2
      · simp [List.countP_cons, isStart, runChunks_true_start_free]

theorem runChunks_false_start_count (frags : List Fragment)
    (h : ∃ f ∈ frags, f.content ≠ "") :
    (runChunks false frags).countP isStart = 1 := by
  rcases runChunks_false_split frags h with ⟨l1, l2, heq, h1, _, h3⟩
  rw [heq]
  simp [List.countP_append, List.countP_cons, h1, h3, isStart]

theorem countP_sep_flatMap (l : List Msg) :
    (l.flatMap toCli).countP (fun o => o = CliOut.logLine cliSeparator) =
      l.countP isStart := by
  have hne : ¬ (("\n" : String) = cliSeparator) := by decide
  induction l with
  | nil => rfl
  | cons m ms ih =>
    cases m <;>
      simp [toCli, isStart, List.countP_cons, ih, hne]

theorem countP_chanSep_flatMap (l : List Msg) :
    (l.flatMap toChan).countP (fun o => o = ChanOut.appendLine "Response:") =
      l.countP isStart := by
  induction l with
  | nil => rfl
  | cons m ms ih =>
    cases m <;>
      simp [toChan, isStart, List.countP_cons, ih]

theorem webviewStep_appendResponse (render : String → String) (st : WebviewState)
    (t : String) (el : ContentEl) (h : st.contentEl = some el) :
    (webviewStep render st (Msg.appendResponse t)).contentEl =
      some (appendResponseEl render el t) := by
  simp [webviewStep, h]

theorem webviewRun_append (render : String → String) (st : WebviewState)
    (l1 l2 : List Msg) :
    webviewRun render st (l1 ++ l2) = webviewRun render (webviewRun render st l1) l2 :=
  List.foldl_append _ _ _ _

theorem webviewStep_updateThinking_contentEl (render : String → String)
    (st : WebviewState) (t : String) :
    (webviewStep render st (Msg.updateThinking t)).contentEl = st.contentEl := by
  cases h : st.thinkingEl <;> simp [webviewStep, h]

theorem webviewRun_thinkEvents_contentEl (render : String → String)
    (st : WebviewState) (s : Bool) (c : Fragment) :
    (webviewRun render st (thinkEvents s c)).contentEl = st.contentEl := by
  by_cases h : c.thinking ≠ "" ∧ s = false <;>
    simp [thinkEvents, h, webviewRun, webviewStep_updateThinking_contentEl]

theorem webviewRun_true_contentEl (render : String → String) (frags : List Fragment)
    (st : WebviewState) (acc : String)
    (hel : st.contentEl = some ⟨acc, render acc⟩) :
    (webviewRun render st (runChunks true frags)).contentEl =
      some ⟨acc ++ answersConcat frags, render (acc ++ answersConcat frags)⟩ := by
  induction frags generalizing st acc with
  | nil =>
    simpa [webviewRun, runChunks, answersConcat, String.append_empty] using hel
  | cons c cs ih =>
    rw [runChunks_cons]
    by_cases hc : c.content = ""
    · have hp : processChunk true c = (true, thinkEvents true c) := by
        simp [processChunk, contentStep, hc]
      rw [hp, webviewRun_append]
      have hel' : (webviewRun render st (thinkEvents true c)).contentEl =
          some ⟨acc, render acc⟩ := by
        rw [webviewRun_thinkEvents_contentEl, hel]
      rw [ih _ _ hel']
      simp [answersConcat, hc, String.empty_append]
    · have hp : processChunk true c =
          (true, thinkEvents true c ++ [Msg.appendResponse c.content]) := by
        simp [processChunk, contentStep, hc]
      rw [hp, webviewRun_append]
      have hel' : (webviewRun render
          (webviewRun render st (thinkEvents true c)) [Msg.appendResponse c.content]).contentEl =
          some ⟨acc ++ c.content, render (acc ++ c.content)⟩ := by
        have h1 : (webviewRun render st (thinkEvents true c)).contentEl =
            some ⟨acc, render acc⟩ := by
          rw [webviewRun_thinkEvents_contentEl, hel]
        show (webviewStep render (webviewRun render st (thinkEvents true c))
            (Msg.appendResponse c.content)).contentEl = _
        rw [webviewStep_appendResponse render _ c.content ⟨acc, render acc⟩ h1]
        simp [appendResponseEl]
      rw [webviewRun_append, ih _ _ hel']
      simp [answersConcat, String.append_assoc]

theorem webviewRun_false_contentEl (render : String → String) (frags : List Fragment)
    (st : WebviewState) (h : ∃ f ∈ frags, f.content ≠ "") :
    (webviewRun render st (runChunks false frags)).contentEl =
      some ⟨answersConcat frags, render (answersConcat frags)⟩ := by
  induction frags generalizing st with
  | nil => simp at h
  | cons c cs ih =>
    rw [runChunks_cons]
    by_cases hc : c.content = ""
    · have h' : ∃ f ∈ cs, f.content ≠ "" := by
        rcases h with ⟨f, hf, hv⟩
        rcases List.mem_cons.mp hf with rfl | hf'
        · exact absurd hc hv
        · exact ⟨f, hf', hv⟩
      have hp : processChunk false c = (false, thinkEvents false c) := by
        simp [processChunk, contentStep, hc]
      rw [hp, webviewRun_append, ih _ h']
      simp [answersConcat, hc, String.empty_append]
    · have hp : processChunk false c =
          (true, thinkEvents false c ++ [Msg.startResponse, Msg.appendResponse c.content]) := by
        simp [processChunk, contentStep, hc]
      rw [hp, webviewRun_append]
      have hstep : (webviewRun render st
          (thinkEvents false c ++ [Msg.startResponse, Msg.appendResponse c.content])).contentEl =
          some ⟨c.content, render c.content⟩ := by
        rw [webviewRun_append]
        show (webviewStep render (webviewStep render
            (webviewRun render st (thinkEvents false c)) Msg.startResponse)
            (Msg.appendResponse c.content)).contentEl = _
        have h1 : (webviewStep render (webviewRun render st (thinkEvents false c))
            Msg.startResponse).contentEl = some ⟨"", ""⟩ := by
          simp [webviewStep]
        rw [webviewStep_appendResponse render _ c.content ⟨"", ""⟩ h1]
        simp [appendResponseEl, String.empty_append]
      rw [webviewRun_true_contentEl render cs _ c.content hstep]
      simp [answersConcat]

theorem runChunks_all_empty (s : Bool) (frags : List Fragment)
    (h : ∀ f ∈ frags, f.thinking = "" ∧ f.content = "") :
    runChunks s frags = [] := by
  induction frags generalizing s with
  | nil => rfl
  | cons c cs ih =>
    have hc := h c (List.mem_cons_self c cs)
    have hp : processChunk s c = (s, []) := by
      simp [processChunk, thinkEvents, contentStep, hc.1, hc.2]
    rw [runChunks_cons, hp]
    simpa using ih s (fun f hf => h f (List.mem_cons_of_mem c hf))

theorem cliRunItems_map_frag_err (s : Bool) (frags : List Fragment) :
    (cliRunItems s (frags.map Item.frag)).2 = none := by
  induction frags generalizing s with
  | nil => rfl
  | cons c cs ih => simp [cliRunItems, ih]

theorem errorTexts_append (l1 l2 : List Msg) :
    errorTexts (l1 ++ l2) = errorTexts l1 ++ errorTexts l2 := by
  induction l1 with
  | nil => rfl
  | cons m ms ih => cases m <;> simp [errorTexts, ih]

theorem webviewStep_errors (render : String → String) (st : WebviewState) (msg : Msg) :
    (webviewStep render st msg).errors = st.errors ++ errorTexts [msg] := by
  cases msg with
  | updateThinking t => cases h : st.thinkingEl <;> simp [webviewStep, h, errorTexts]
  | appendResponse t => cases h : st.contentEl <;> simp [webviewStep, h, errorTexts]
  | _ => simp [webviewStep, errorTexts]

theorem webviewRun_errors (render : String → String) (st : WebviewState) (l : List Msg) :
    (webviewRun render st l).errors = st.errors ++ errorTexts l := by
  induction l generalizing st with
  | nil => simp [webviewRun, errorTexts]
  | cons m ms ih =>
    show (webviewRun render (webviewStep render st m) ms).errors = _
    rw [ih, webviewStep_errors]
    cases m <;> simp [errorTexts]

theorem runChunks_errorTexts (s : Bool) (frags : List Fragment) :
    errorTexts (runChunks s frags) = [] := by
  induction frags generalizing s with
  | nil => rfl
  | cons c cs ih =>
    rw [runChunks_cons, errorTexts_append, ih]
    by_cases ht : c.thinking ≠ "" ∧ s = false <;> by_cases hc : c.content = "" <;>
      cases s <;> simp_all [processChunk, thinkEvents, contentStep, errorTexts]

theorem runChunks_no_error (s : Bool) (frags : List Fragment) :
    (runChunks s frags).countP isError = 0 := by
  induction frags generalizing s with
  | nil => rfl
  | cons c cs ih =>
    rw [runChunks_cons]
    by_cases ht : c.thinking ≠ "" ∧ s = false <;> by_cases hc : c.content = "" <;>
      cases s <;>
        simp_all [processChunk, thinkEvents, contentStep, isError,
          List.countP_append, List.countP_cons]

theorem runChunks_no_completed (s : Bool) (frags : List Fragment) :
    (runChunks s frags).countP isCompleted = 0 := by
  induction frags generalizing s with
  | nil => rfl
  | cons c cs ih =>
    rw [runChunks_cons]
    by_cases ht : c.thinking ≠ "" ∧ s = false <;> by_cases hc : c.content = "" <;>
      cases s <;>
        simp_all [processChunk, thinkEvents, contentStep, isCompleted,
          List.countP_append, List.countP_cons]

theorem runItems_fail_after (s : Bool) (pre : List Fragment) (m : String) (post : List Item) :
    runItems s (pre.map Item.frag ++ Item.fail m :: post) = runChunks s pre ++ [Msg.error m] := by
  induction pre generalizing s with
  | nil => rfl
  | cons c cs ih => simp [runItems, runChunks_cons, ih]

theorem cliRunItems_fail_after (s : Bool) (pre : List Fragment) (m : String)
    (post : List Item) :
    cliRunItems s (pre.map Item.frag ++ Item.fail m :: post) =
      ((runChunks s pre).flatMap toCli, some m) := by
  induction pre generalizing s with
  | nil => rfl
  | cons c cs ih => simp [cliRunItems, runChunks_cons, cliChunk_eq, ih]

theorem chanRunItems_fail_after (s : Bool) (pre : List Fragment) (m : String)
    (post : List Item) :
    chanRunItems s (pre.map Item.frag ++ Item.fail m :: post) =
      ((runChunks s pre).flatMap toChan, some m) := by
  induction pre generalizing s with
  | nil => rfl
  | cons c cs ih => simp [chanRunItems, runChunks_cons, chanChunk_eq, ih]

/-- C1: for every fragment sequence containing at least one fragment with
non-empty answer content, the aggregation loop posts `startResponse`
exactly once and before the first `appendResponse`, and the terminal and
log-channel front ends write their literal `Response:` / `========`
separator exactly once, at that response-start point. -/
theorem responseStarted_once_before_updates (frags : List Fragment)
    (h : ∃ f ∈ frags, f.content ≠ "") :
    ((runChunks false frags).countP isStart = 1 ∧
      (∃ l1 l2, runChunks false frags = l1 ++ Msg.startResponse :: l2 ∧
        l1.countP isAppend = 0)) ∧
    (cliRun false frags).countP (fun o => o = CliOut.logLine cliSeparator) = 1 ∧
    (chanRun false frags).countP (fun o => o = ChanOut.appendLine "Response:") = 1 := by
  refine ⟨⟨runChunks_false_start_count frags h, ?_⟩, ?_, ?_⟩
  · rcases runChunks_false_split frags h with ⟨l1, l2, heq, _, h2, _⟩
    exact ⟨l1, l2, heq, h2⟩
  · have hne : ¬ (("\n" : String) = cliSeparator) := by decide
    rw [cliRun_eq_bind]
    simp [List.countP_append, countP_sep_flatMap,
      runChunks_false_start_count frags h, hne]
  · rw [chanRun_eq_bind, countP_chanSep_flatMap, runChunks_false_start_count frags h]

theorem responseStarted_once_before_updates_witness :
    (∃ f ∈ [Fragment.mk "" "Hi"], f.content ≠ "") ∧
      (((runChunks false [Fragment.mk "" "Hi"]).countP isStart = 1 ∧
        (∃ l1 l2, runChunks false [Fragment.mk "" "Hi"] = l1 ++ Msg.startResponse :: l2 ∧
          l1.countP isAppend = 0)) ∧
      (cliRun false [Fragment.mk "" "Hi"]).countP (fun o => o = CliOut.logLine cliSeparator) = 1 ∧
      (chanRun false [Fragment.mk "" "Hi"]).countP
        (fun o => o = ChanOut.appendLine "Response:") = 1) :=
  ⟨by decide, responseStarted_once_before_updates [Fragment.mk "" "Hi"] (by decide)⟩

/-- C2: the content displayed after the last `appendResponse` of a turn is
the re-rendered form (`marked.parse`, modelled by `render`) of the
concatenation, in arrival order, of every fragment's answer text. -/
theorem last_update_renders_full_concat (render : String → String) (frags : List Fragment)
    (h : ∃ f ∈ frags, f.content ≠ "") :
    (webviewRun render emptyChat (runChunks false frags)).contentEl =
      some ⟨answersConcat frags, render (answersConcat frags)⟩ :=
  webviewRun_false_contentEl render frags emptyChat h

theorem last_update_renders_full_concat_witness :
    (∃ f ∈ [Fragment.mk "Let" "", Fragment.mk "" "Hi", Fragment.mk "" " there"],
        f.content ≠ "") ∧
    (webviewRun id emptyChat (runChunks false
        [Fragment.mk "Let" "", Fragment.mk "" "Hi", Fragment.mk "" " there"])).contentEl =
      some ⟨answersConcat [Fragment.mk "Let" "", Fragment.mk "" "Hi", Fragment.mk "" " there"],
        id (answersConcat [Fragment.mk "Let" "", Fragment.mk "" "Hi", Fragment.mk "" " there"])⟩ :=
  ⟨by decide, last_update_renders_full_concat id
    [Fragment.mk "Let" "", Fragment.mk "" "Hi", Fragment.mk "" " there"] (by decide)⟩

/-- C6: a fragment whose two fields are both empty/absent produces no
render event in any of the three front ends and leaves the `started`
flag unchanged — a keep-alive no-op, not an error. -/
theorem empty_fragment_noop (s : Bool) (f : Fragment)
    (ht : f.thinking = "") (hc : f.content = "") :
    processChunk s f = (s, []) ∧ cliChunk s f = (s, []) ∧ chanChunk s f = (s, []) := by
  refine ⟨?_, ?_, ?_⟩ <;>
    simp [processChunk, thinkEvents, contentStep, cliChunk, chanChunk, ht, hc]

theorem empty_fragment_noop_witness :
    (Fragment.mk "" "").thinking = "" ∧ (Fragment.mk "" "").content = "" ∧
      (processChunk false (Fragment.mk "" "") = (false, []) ∧
        cliChunk false (Fragment.mk "" "") = (false, []) ∧
        chanChunk false (Fragment.mk "" "") = (false, [])) :=
  ⟨rfl, rfl, empty_fragment_noop false (Fragment.mk "" "") rfl rfl⟩

/-- C7: the markdown accumulator is a pure deterministic function of the
accumulated raw text: the handler's result does not depend on the
previously rendered markup, the new `innerHTML` is the full re-render of
the new raw text, and re-rendering the frozen input again yields the
identical element. -/
theorem accumulator_pure_deterministic (render : String → String) (e1 e2 : ContentEl)
    (t : String) (h : e1.dataRaw = e2.dataRaw) :
    appendResponseEl render e1 t = appendResponseEl render e2 t ∧
    (appendResponseEl render e1 t).innerHTML =
      render ((appendResponseEl render e1 t).dataRaw) ∧
    appendResponseEl render (appendResponseEl render e1 t) "" =
      appendResponseEl render e1 t := by
  refine ⟨?_, rfl, ?_⟩
  · simp [appendResponseEl, h]
  · simp [appendResponseEl, String.append_empty]

theorem accumulator_pure_deterministic_witness :
    (ContentEl.mk "ab" "stale").dataRaw = (ContentEl.mk "ab" "other").dataRaw ∧
      (appendResponseEl id (ContentEl.mk "ab" "stale") "c" =
          appendResponseEl id (ContentEl.mk "ab" "other") "c" ∧
        (appendResponseEl id (ContentEl.mk "ab" "stale") "c").innerHTML =
          id ((appendResponseEl id (ContentEl.mk "ab" "stale") "c").dataRaw) ∧
        appendResponseEl id (appendResponseEl id (ContentEl.mk "ab" "stale") "c") "" =
          appendResponseEl id (ContentEl.mk "ab" "stale") "c") :=
  ⟨rfl, accumulator_pure_deterministic id (ContentEl.mk "ab" "stale")
    (ContentEl.mk "ab" "other") "c" rfl⟩

/-- C8 counterexample: the output-channel front end (part_001 lines
12-28) guards only against a cancelled input box (`userInput ===
undefined`); an empty submission — and likewise a whitespace-only one —
is not rejected: it writes the `Thinking...` line and issues a chat
request carrying exactly the submitted text, so a turn is created and a
render write is emitted, contradicting the claim there. -/
theorem chan_empty_input_creates_turn :
    chanOnInput (some "") = some ([ChanOut.appendLine "Thinking..."], "") ∧
      chanOnInput (some "   ") = some ([ChanOut.appendLine "Thinking..."], "   ") ∧
      chanOnInput none = none :=
  ⟨rfl, rfl, rfl⟩

/-- C8 (amended): in the terminal and webview front ends a submission
that trims (JavaScript `trim`) to the empty string creates no turn: the
CLI line listener re-prompts without issuing a chat request and the
webview send handler returns before posting any message; the
output-channel front end rejects nothing except a dismissed input box —
any submitted string, empty or whitespace-only included, starts a turn:
it writes the `Thinking...` line and issues a chat request with exactly
that content. -/
theorem empty_input_no_turn (line inputValue chanInput : String)
    (h1 : jsTrim line = "") (h2 : jsTrim inputValue = "") :
    onLine line = LineOutcome.noTurn ∧ sendClick inputValue = none ∧
      chanOnInput (some chanInput) =
        some ([ChanOut.appendLine "Thinking..."], chanInput) ∧
      chanOnInput none = none :=
  ⟨by simp [onLine, h1], by simp [sendClick, h2], rfl, rfl⟩

theorem empty_input_no_turn_witness :
    jsTrim "  " = "" ∧ jsTrim "\u00a0" = "" ∧
      (onLine "  " = LineOutcome.noTurn ∧ sendClick "\u00a0" = none ∧
        chanOnInput (some "") = some ([ChanOut.appendLine "Thinking..."], "") ∧
        chanOnInput none = none) :=
  ⟨by decide, by decide, empty_input_no_turn "  " "\u00a0" "" (by decide) (by decide)⟩

/-- C9: each `appendResponse` update is append-only on the raw answer
text: the new `data-raw` is exactly the old `data-raw` followed by the
incoming fragment text, so the old raw text is a prefix of the new one. -/
theorem raw_answer_append_only (render : String → String) (el : ContentEl) (t : String) :
    (appendResponseEl render el t).dataRaw = el.dataRaw ++ t ∧
      ∃ suffix, (appendResponseEl render el t).dataRaw = el.dataRaw ++ suffix :=
  ⟨rfl, t, rfl⟩

/-- C3 counterexample: in the sequence [answer "Hi", reasoning "wait"],
the second fragment carries non-empty reasoning, yet the loop emits no
`updateThinking` at all: the single `started` flag, set by the earlier
answer fragment, blocks the reasoning display (all three front ends
share this guard). -/
theorem reasoning_after_answer_suppressed :
    (∃ f ∈ [Fragment.mk "" "Hi", Fragment.mk "wait" ""], f.thinking ≠ "") ∧
      (runChunks false [Fragment.mk "" "Hi", Fragment.mk "wait" ""]).countP isThinkUpd = 0 ∧
      runChunks false [Fragment.mk "" "Hi", Fragment.mk "wait" ""] =
        [Msg.startResponse, Msg.appendResponse "Hi"] := by
  refine ⟨by decide, by decide, by decide⟩

/-- C3 amended: the `started` flag gates reasoning display and never
blocks answer processing: a fragment produces an `updateThinking` exactly
when its reasoning is non-empty and the flag is still false (no answer
content has arrived yet), and it produces an `appendResponse` exactly
when its answer is non-empty, regardless of the flag. -/
theorem started_flag_gates_reasoning (s : Bool) (f : Fragment) :
    ((processChunk s f).2.countP isThinkUpd =
      if f.thinking ≠ "" ∧ s = false then 1 else 0) ∧
    ((processChunk s f).2.countP isAppend = if f.content ≠ "" then 1 else 0) := by
  constructor <;>
    by_cases ht : f.thinking ≠ "" ∧ s = false <;> by_cases hc : f.content = "" <;>
      cases s <;>
        simp_all [processChunk, thinkEvents, contentStep, isThinkUpd, isAppend,
          List.countP_append, List.countP_cons]

/-- C4: on normal exhaustion of the fragment source, the webview turn's
event sequence ends with `turnCompleted`; and a turn whose fragments all
have both fields empty (the empty sequence included) produces exactly
`[turnCompleted]` in the webview front end, exactly the final blank
`console.log('\n')` in the CLI with no escaped error, and no output at
all in the output channel front end. -/
theorem exhaustion_emits_turnCompleted (frags allEmpty : List Fragment)
    (h : ∀ f ∈ allEmpty, f.thinking = "" ∧ f.content = "") :
    runItems false (frags.map Item.frag) = runChunks false frags ++ [Msg.turnCompleted] ∧
    runItems false (allEmpty.map Item.frag) = [Msg.turnCompleted] ∧
    cliRunItems false (allEmpty.map Item.frag) = ([CliOut.logLine "\n"], none) ∧
    chanRun false allEmpty = [] := by
  refine ⟨runItems_map_frag false frags, ?_, ?_, ?_⟩
  · rw [runItems_map_frag, runChunks_all_empty false allEmpty h]
    rfl
  · rw [Prod.ext_iff]
    constructor
    · show cliRun false allEmpty = [CliOut.logLine "\n"]
      rw [cliRun_eq_bind, runChunks_all_empty false allEmpty h]
      rfl
    · exact cliRunItems_map_frag_err false allEmpty
  · rw [chanRun_eq_bind, runChunks_all_empty false allEmpty h]
    rfl

theorem exhaustion_emits_turnCompleted_witness :
    (∀ f ∈ [Fragment.mk "" ""], f.thinking = "" ∧ f.content = "") ∧
      (runItems false ([Fragment.mk "Let" "Hi"].map Item.frag) =
          runChunks false [Fragment.mk "Let" "Hi"] ++ [Msg.turnCompleted] ∧
        runItems false ([Fragment.mk "" ""].map Item.frag) = [Msg.turnCompleted] ∧
        cliRunItems false ([Fragment.mk "" ""].map Item.frag) = ([CliOut.logLine "\n"], none) ∧
        chanRun false [Fragment.mk "" ""] = []) :=
  ⟨by decide, exhaustion_emits_turnCompleted [Fragment.mk "Let" "Hi"]
    [Fragment.mk "" ""] (by decide)⟩

/-- C5 counterexample: the terminal front end has no try/catch around its
stream loop: on a source that fails immediately with message "boom", the
`chat` handler prints nothing — in particular the failure message is not
printed inline, contradicting the claim for the terminal sink — and the
error escapes the `line` listener uncaught. -/
theorem cli_failure_not_printed :
    (cliRunItems false [Item.fail "boom"]).1 = [] ∧
      (cliRunItems false [Item.fail "boom"]).2 = some "boom" ∧
      ¬ ∃ o ∈ (cliRunItems false [Item.fail "boom"]).1,
          o = CliOut.write "boom" ∨ o = CliOut.logLine "boom" := by
  refine ⟨rfl, rfl, ?_⟩
  rintro ⟨o, ho, _⟩
  simp [cliRunItems] at ho

/-- C5 (amended): on a mid-stream source failure after a processed
prefix of fragments: the webview front end emits exactly the prefix's
events followed by one `error` carrying the underlying message —
fragments after the failure are not processed, no `turnCompleted` is
emitted — and its sink renders exactly one error block with that
message; the terminal and output-channel front ends, which have no
failure handling, write exactly the already-processed prefix's output
and nothing more (in particular no failure message and no completion
output) while the error escapes their handlers uncaught. -/
theorem failure_stops_turn (render : String → String) (s : Bool)
    (pre : List Fragment) (m : String) (post : List Item) :
    runItems s (pre.map Item.frag ++ Item.fail m :: post) =
      runChunks s pre ++ [Msg.error m] ∧
    (runItems s (pre.map Item.frag ++ Item.fail m :: post)).countP isCompleted = 0 ∧
    (runItems s (pre.map Item.frag ++ Item.fail m :: post)).countP isError = 1 ∧
    (webviewRun render emptyChat
      (runItems s (pre.map Item.frag ++ Item.fail m :: post))).errors = [m] ∧
    cliRunItems s (pre.map Item.frag ++ Item.fail m :: post) =
      ((runChunks s pre).flatMap toCli, some m) ∧
    chanRunItems s (pre.map Item.frag ++ Item.fail m :: post) =
      ((runChunks s pre).flatMap toChan, some m) := by
  have heq := runItems_fail_after s pre m post
  refine ⟨heq, ?_, ?_, ?_, cliRunItems_fail_after s pre m post,
    chanRunItems_fail_after s pre m post⟩
  · rw [heq]
    simp [List.countP_append, List.countP_cons, runChunks_no_completed, isCompleted]
  · rw [heq]
    simp [List.countP_append, List.countP_cons, runChunks_no_error, isError]
  · rw [heq, webviewRun_errors, errorTexts_append, runChunks_errorTexts]
    simp [emptyChat, errorTexts]

theorem thinkOut_eq (s : Bool) (f : Fragment) (e : List Msg)
    (h : ThinkOut s f e) : e = thinkEvents s f := by
  cases h with
  | emit f hf => simp [thinkEvents, hf]
  | skipStarted f => simp [thinkEvents]
  | skipEmpty s f hf => simp [thinkEvents, hf]

theorem contentOut_eq (s : Bool) (f : Fragment) (p : Bool × List Msg)
    (h : ContentOut s f p) : p = contentStep s f := by
  cases h with
  | start f hf => simp [contentStep, hf]
  | more f hf => simp [contentStep, hf]
  | skip s f hf => simp [contentStep, hf]

theorem aggRun_eq_runItems (s : Bool) (items : List Item) (out : List Msg)
    (h : AggRun s items out) : out = runItems s items := by
  induction h with
  | exhausted s => rfl
  | failed s m rest => rfl
  | step s s' f e1 e2 out rest h1 h2 h3 ih =>
    have he1 := thinkOut_eq s f e1 h1
    have he2 := contentOut_eq s f (s', e2) h2
    have hs' : s' = (contentStep s f).1 := by rw [← he2]
    have he2' : e2 = (contentStep s f).2 := by rw [← he2]
    subst he1 he2' ih hs'
    simp [runItems, processChunk]

theorem thinkOut_thinkEvents (s : Bool) (f : Fragment) : ThinkOut s f (thinkEvents s f) := by
  by_cases ht : f.thinking = ""
  · have he : thinkEvents s f = [] := by simp [thinkEvents, ht]
    rw [he]
    exact ThinkOut.skipEmpty s f ht
  · cases s
    · have he : thinkEvents false f = [Msg.updateThinking f.thinking] := by
        simp [thinkEvents, ht]
      rw [he]
      exact ThinkOut.emit f ht
    · have he : thinkEvents true f = [] := by simp [thinkEvents]
      rw [he]
      exact ThinkOut.skipStarted f

theorem contentOut_contentStep (s : Bool) (f : Fragment) :
    ContentOut s f (contentStep s f) := by
  by_cases hc : f.content = ""
  · have he : contentStep s f = (s, []) := by simp [contentStep, hc]
    rw [he]
    exact ContentOut.skip s f hc
  · cases s
    · have he : contentStep false f =
          (true, [Msg.startResponse, Msg.appendResponse f.content]) := by
        simp [contentStep, hc]
      rw [he]
      exact ContentOut.start f hc
    · have he : contentStep true f = (true, [Msg.appendResponse f.content]) := by
        simp [contentStep, hc]
      rw [he]
      exact ContentOut.more f hc

theorem aggRun_runItems (s : Bool) (items : List Item) :
    AggRun s items (runItems s items) := by
  induction items generalizing s with
  | nil => exact AggRun.exhausted s
  | cons it rest ih =>
    cases it with
    | fail m => exact AggRun.failed s m rest
    | frag f =>
      have hstep := AggRun.step s (contentStep s f).1 f (thinkEvents s f)
        (contentStep s f).2 (runItems (contentStep s f).1 rest) rest
        (thinkOut_thinkEvents s f)
        (by simpa using contentOut_contentStep s f)
        (ih (contentStep s f).1)
      have he : runItems s (Item.frag f :: rest) =
          thinkEvents s f ++ ((contentStep s f).2 ++ runItems (contentStep s f).1 rest) := by
        simp [runItems, processChunk]
      rw [he]
      exact hstep

/-- C10: the aggregation loop is deterministic: any two runs of the loop
semantics over the same item sequence from the same `started` flag
produce the same event sequence, because each fragment's effect depends
only on its own fields and the current flag. -/
theorem aggregator_deterministic (s : Bool) (items : List Item) (out1 out2 : List Msg)
    (h1 : AggRun s items out1) (h2 : AggRun s items out2) : out1 = out2 := by
  rw [aggRun_eq_runItems s items out1 h1, aggRun_eq_runItems s items out2 h2]

theorem aggregator_deterministic_witness :
    ([] ++ ([Msg.startResponse, Msg.appendResponse "Hi"] ++ [Msg.turnCompleted]) : List Msg) =
      [Msg.startResponse, Msg.appendResponse "Hi", Msg.turnCompleted] :=
  aggregator_deterministic false [Item.frag (Fragment.mk "" "Hi")] _ _
    (AggRun.step false true (Fragment.mk "" "Hi") []
      [Msg.startResponse, Msg.appendResponse "Hi"] [Msg.turnCompleted] []
      (ThinkOut.skipEmpty false (Fragment.mk "" "Hi") rfl)
      (ContentOut.start (Fragment.mk "" "Hi") (by decide))
      (AggRun.exhausted true))
    (show AggRun false [Item.frag (Fragment.mk "" "Hi")]
        [Msg.startResponse, Msg.appendResponse "Hi", Msg.turnCompleted] from
      AggRun.step false true (Fragment.mk "" "Hi") []
        [Msg.startResponse, Msg.appendResponse "Hi"] [Msg.turnCompleted] []
        (ThinkOut.skipEmpty false (Fragment.mk "" "Hi") rfl)
        (ContentOut.start (Fragment.mk "" "Hi") (by decide))
        (AggRun.exhausted true))
